import Mathlib

/-!
Verification development for the astroblasto_multiplayer repository.

The game kernel (src/lib.rs) is embedded shallowly: `f32` values are modelled
as real numbers, vectors as pairs of reals, and the mutating Rust functions as
pure state transformers.  The randomness consumed by the rock spawner is made
explicit as a parameter supplying the raw uniform samples in `[0, 1)`.

The byte-level map codec (src/hash_map_codec.rs) delegates the actual
encoding to the external `bytevec` crate, whose code is not part of this
repository; that layer is modelled from the specification (length-prefixed
big-endian wire format of section 4.12).  Bytes are natural numbers, keys are
byte lists, and 64-bit float values are carried as their 64-bit patterns.
-/

namespace Astroblasto

/-! ### Codec: byte-level primitives -/

/-- Big-endian byte encoding of `n` into exactly `k` bytes (most significant
first).  Modelled from the spec: the `bytevec` integral encoding used by
`HashMap::encode::<u32>` is not in `src/`; section 4.12 mandates big-endian. -/
def beBytes : Nat → Nat → List Nat
  | 0, _ => []
  | k + 1, n => beBytes k (n / 256) ++ [n % 256]

/-- Big-endian interpretation of a byte list. -/
def fromBE (l : List Nat) : Nat := l.foldl (fun acc b => acc * 256 + b) 0

/-- Read `k` bytes from the front of a buffer as a big-endian integer. -/
def readBE (k : Nat) (buf : List Nat) : Option (Nat × List Nat) :=
  if k ≤ buf.length then some (fromBE (buf.take k), buf.drop k) else none

/-- Read `k` raw bytes from the front of a buffer. -/
def readBytes (k : Nat) (buf : List Nat) : Option (List Nat × List Nat) :=
  if k ≤ buf.length then some (buf.take k, buf.drop k) else none

/-- Modelled from the spec: one map entry on the wire is a 32-bit big-endian
key-byte-length, the key bytes, then the 8-byte big-endian double. -/
def encodeEntries : List (List Nat × Nat) → List Nat
  | [] => []
  | e :: rest => beBytes 4 e.1.length ++ e.1 ++ beBytes 8 e.2 ++ encodeEntries rest

/-- Modelled from the spec: the wire form of a map is a 32-bit big-endian
entry count followed by the entries (section 4.12); the `bytevec` encoder
called by `HashMapCodec::encode` is not part of this repository. -/
def bytevec_encode (m : List (List Nat × Nat)) : List Nat :=
  beBytes 4 m.length ++ encodeEntries m

/-- Decode a single entry: key length, key bytes, 8-byte value. -/
def decodeEntry (buf : List Nat) : Option ((List Nat × Nat) × List Nat) :=
  match readBE 4 buf with
  | none => none
  | some (len, r1) =>
    match readBytes len r1 with
    | none => none
    | some (key, r2) =>
      match readBE 8 r2 with
      | none => none
      | some (v, r3) => some ((key, v), r3)

/-- Decode exactly `n` entries in sequence. -/
def decodeEntries : Nat → List Nat → Option (List (List Nat × Nat) × List Nat)
  | 0, buf => some ([], buf)
  | n + 1, buf =>
    match decodeEntry buf with
    | none => none
    | some (e, r) =>
      match decodeEntries n r with
      | none => none
      | some (es, r2) => some (e :: es, r2)

/-- Modelled from the spec: the inverse of `bytevec_encode`; trailing bytes
beyond the announced entries make the datagram malformed (section 4.12). -/
def bytevec_decode (buf : List Nat) : Option (List (List Nat × Nat)) :=
  match readBE 4 buf with
  | none => none
  | some (n, r) =>
    match decodeEntries n r with
    | none => none
    | some (es, r2) => if r2 = [] then some es else none

/-- Possible outcomes of the Rust `HashMapCodec::decode` wrapper: a
successful `Ok(Some(map))`, an `io::Error` return, or a panic raised by
`expect`. -/
inductive DecodeOutcome where
  | ok : Option (List (List Nat × Nat)) → DecodeOutcome
  | err : DecodeOutcome
  | panicked : DecodeOutcome
deriving DecidableEq

/-- The `Decoder::decode` implementation in src/hash_map_codec.rs: it calls
the inner decoder and `.expect("unable to decode")`, so an undecodable
buffer panics instead of producing the `err` outcome. -/
def HashMapCodec.decode (buf : List Nat) : DecodeOutcome :=
  match bytevec_decode buf with
  | some m => DecodeOutcome.ok (some m)
  | none => DecodeOutcome.panicked

/-- The `Encoder::encode` implementation in src/hash_map_codec.rs: encode the
map with the inner encoder and append the bytes to the output buffer. -/
def HashMapCodec.encode (hash_map : List (List Nat × Nat)) (buf : List Nat) : List Nat :=
  buf ++ bytevec_encode hash_map

/-! ### Game world: vectors, actors, constants (src/lib.rs) -/

noncomputable section

structure Vec2 where
  x : ℝ
  y : ℝ

instance : Add Vec2 := ⟨fun a b => ⟨a.x + b.x, a.y + b.y⟩⟩
instance : Sub Vec2 := ⟨fun a b => ⟨a.x - b.x, a.y - b.y⟩⟩

/-- Vector scaled by a scalar on the right, as the nalgebra `vector * scalar`. -/
def Vec2.smul (v : Vec2) (c : ℝ) : Vec2 := ⟨v.x * c, v.y * c⟩

/-- The nalgebra `norm_squared`. -/
def Vec2.normSq (v : Vec2) : ℝ := v.x * v.x + v.y * v.y

/-- The nalgebra Euclidean `norm`. -/
def Vec2.norm (v : Vec2) : ℝ := Real.sqrt v.normSq

inductive ActorType where
  | Player
  | Rock
  | Shot
deriving DecidableEq

structure Actor where
  tag : ActorType
  pos : Vec2
  facing : ℝ
  velocity : Vec2
  ang_vel : ℝ
  bbox_size : ℝ
  life : ℝ

def PLAYER_LIFE : ℝ := 1
def SHOT_LIFE : ℝ := 2
def ROCK_LIFE : ℝ := 1
def PLAYER_BBOX : ℝ := 12
def ROCK_BBOX : ℝ := 12
def SHOT_BBOX : ℝ := 6
def MAX_ROCK_VEL : ℝ := 50
def SHOT_SPEED : ℝ := 200
def SHOT_ANG_VEL : ℝ := 0.1
def PLAYER_THRUST : ℝ := 100
def PLAYER_TURN_RATE : ℝ := 3
def PLAYER_SHOT_TIME : ℝ := 0.5
def MAX_PHYSICS_VEL : ℝ := 250

/-- `vec_from_angle` in src/lib.rs: unit vector `(sin a, cos a)`. -/
def vec_from_angle (angle : ℝ) : Vec2 := ⟨Real.sin angle, Real.cos angle⟩

/-- `random_vec` in src/lib.rs, with the two raw uniform `[0,1)` samples made
explicit: uniform angle in `[0, 2*pi)` and uniform magnitude below the bound. -/
def random_vec (max_magnitude : ℝ) (ra rm : ℝ) : Vec2 :=
  (vec_from_angle (ra * (2 * Real.pi))).smul (rm * max_magnitude)

def create_player : Actor :=
  { tag := ActorType.Player, pos := ⟨0, 0⟩, facing := 0, velocity := ⟨0, 0⟩,
    ang_vel := 0, bbox_size := PLAYER_BBOX, life := PLAYER_LIFE }

def create_rock : Actor :=
  { tag := ActorType.Rock, pos := ⟨0, 0⟩, facing := 0, velocity := ⟨0, 0⟩,
    ang_vel := 0, bbox_size := ROCK_BBOX, life := ROCK_LIFE }

def create_shot : Actor :=
  { tag := ActorType.Shot, pos := ⟨0, 0⟩, facing := 0, velocity := ⟨0, 0⟩,
    ang_vel := SHOT_ANG_VEL, bbox_size := SHOT_BBOX, life := SHOT_LIFE }

/-- `create_rocks` in src/lib.rs.  `rng i` supplies, for the `i`-th rock, the
four raw uniform `[0,1)` samples drawn by `rand::random`: rock angle, rock
distance, velocity angle, velocity magnitude.  The source asserts
`max_radius > min_radius`; call sites use 100 and 250. -/
def create_rocks (num : ℤ) (exclusion : Vec2) (min_radius max_radius : ℝ)
    (rng : ℕ → ℝ × ℝ × ℝ × ℝ) : List Actor :=
  (List.range num.toNat).map fun i =>
    let r := rng i
    let r_angle := r.1 * (2 * Real.pi)
    let r_distance := r.2.1 * (max_radius - min_radius) + min_radius
    { create_rock with
        pos := exclusion + (vec_from_angle r_angle).smul r_distance,
        velocity := random_vec MAX_ROCK_VEL r.2.2.1 r.2.2.2 }

/-! ### Physics (src/lib.rs) -/

structure InputState where
  xaxis : ℝ
  yaxis : ℝ
  fire : Bool

def InputState.default : InputState := { xaxis := 0, yaxis := 0, fire := false }

/-- `player_thrust` in src/lib.rs. -/
def player_thrust (actor : Actor) (dt : ℝ) : Actor :=
  let direction_vector := vec_from_angle actor.facing
  let thrust_vector := direction_vector.smul PLAYER_THRUST
  { actor with velocity := actor.velocity + thrust_vector.smul dt }

/-- `player_handle_input` in src/lib.rs. -/
def player_handle_input (actor : Actor) (inp : InputState) (dt : ℝ) : Actor :=
  let actor1 := { actor with facing := actor.facing + dt * PLAYER_TURN_RATE * inp.xaxis }
  if inp.yaxis > 0 then player_thrust actor1 dt else actor1

/-- `update_actor_position` in src/lib.rs: clamp the velocity, integrate the
position, and advance `facing` by the per-tick angular velocity. -/
def update_actor_position (actor : Actor) (dt : ℝ) : Actor :=
  let norm_sq := actor.velocity.normSq
  let actor1 :=
    if norm_sq > MAX_PHYSICS_VEL ^ 2 then
      { actor with velocity :=
          ⟨actor.velocity.x / Real.sqrt norm_sq * MAX_PHYSICS_VEL,
           actor.velocity.y / Real.sqrt norm_sq * MAX_PHYSICS_VEL⟩ }
    else actor
  let dv := actor1.velocity.smul dt
  { actor1 with pos := actor1.pos + dv, facing := actor1.facing + actor1.ang_vel }

/-- The per-coordinate branch of `wrap_actor_position`: subtract a screen
width above the half bound, add one below the negated half bound. -/
def wrapCoord (x s : ℝ) : ℝ :=
  if x > s / 2 then x - s else if x < -(s / 2) then x + s else x

/-- `wrap_actor_position` in src/lib.rs. -/
def wrap_actor_position (actor : Actor) (sx sy : ℝ) : Actor :=
  { actor with pos := ⟨wrapCoord actor.pos.x sx, wrapCoord actor.pos.y sy⟩ }

/-- `handle_timed_life` in src/lib.rs. -/
def handle_timed_life (actor : Actor) (dt : ℝ) : Actor :=
  { actor with life := actor.life - dt }

/-! ### Main game state and tick (src/lib.rs) -/

structure MainState where
  player : Actor
  shots : List Actor
  rocks : List Actor
  level : ℤ
  score : ℤ
  screen_width : ℝ
  screen_height : ℝ
  input : InputState
  player_shot_timeout : ℝ

/-- `MainState::fire_player_shot`: reset the cooldown and append a new shot
at the player pose whose velocity is `SHOT_SPEED` times the facing unit
vector (the velocity of the player is not added). -/
def fire_player_shot (s : MainState) : MainState :=
  let shot0 := create_shot
  let direction := vec_from_angle s.player.facing
  let shot := { shot0 with
      pos := s.player.pos,
      facing := s.player.facing,
      velocity := ⟨SHOT_SPEED * direction.x, SHOT_SPEED * direction.y⟩ }
  { s with player_shot_timeout := PLAYER_SHOT_TIME, shots := s.shots ++ [shot] }

/-- The `Vec::retain(|a| a.life > 0.0)` used by `clear_dead_stuff`. -/
def pruneDead : List Actor → List Actor
  | [] => []
  | a :: rest => if a.life > 0 then a :: pruneDead rest else pruneDead rest

/-- `MainState::clear_dead_stuff`. -/
def clear_dead_stuff (s : MainState) : MainState :=
  { s with shots := pruneDead s.shots, rocks := pruneDead s.rocks }

/-- The inner shot loop of `MainState::handle_collisions` for one rock:
returns the rock (possibly killed), the updated shot list, and the number of
score increments. -/
def collideShots (rock : Actor) : List Actor → Actor × List Actor × ℤ
  | [] => (rock, [], 0)
  | shot :: rest =>
    if (shot.pos - rock.pos).norm < shot.bbox_size + rock.bbox_size then
      let res := collideShots { rock with life := 0 } rest
      (res.1, { shot with life := 0 } :: res.2.1, res.2.2 + 1)
    else
      let res := collideShots rock rest
      (res.1, shot :: res.2.1, res.2.2)

/-- The outer rock loop of `MainState::handle_collisions`, threading the
player, the shot list and the score through the iterations and collecting
the updated rocks. -/
def handleRocks (player : Actor) (shots : List Actor) (score : ℤ) :
    List Actor → Actor × List Actor × ℤ × List Actor
  | [] => (player, shots, score, [])
  | rock :: rest =>
    let player2 :=
      if (rock.pos - player.pos).norm < player.bbox_size + rock.bbox_size then
        { player with life := 0 }
      else player
    let res := collideShots rock shots
    let rec2 := handleRocks player2 res.2.1 (score + res.2.2) rest
    (rec2.1, rec2.2.1, rec2.2.2.1, res.1 :: rec2.2.2.2)

/-- `MainState::handle_collisions`. -/
def handle_collisions (s : MainState) : MainState :=
  let res := handleRocks s.player s.shots s.score s.rocks
  { s with player := res.1, shots := res.2.1, score := res.2.2.1, rocks := res.2.2.2 }

/-- `MainState::check_for_level_respawn`: on an empty rock list, bump the
level and spawn `level + 5` rocks (with the already incremented level)
around the player. -/
def check_for_level_respawn (s : MainState) (rng : ℕ → ℝ × ℝ × ℝ × ℝ) : MainState :=
  if s.rocks.isEmpty then
    let level2 := s.level + 1
    { s with level := level2,
             rocks := s.rocks ++ create_rocks (level2 + 5) s.player.pos 100 250 rng }
  else s

/-- The opening segment of one `EventHandler::update` tick: apply input to
the player, decrement the shot cooldown, and fire when the fire button is
held and the cooldown is below zero. -/
def fireStep (s : MainState) (dt : ℝ) : MainState :=
  let s1 := { s with player := player_handle_input s.player s.input dt }
  let s2 := { s1 with player_shot_timeout := s1.player_shot_timeout - dt }
  if s2.input.fire = true ∧ s2.player_shot_timeout < 0 then fire_player_shot s2 else s2

/-- One fixed-step tick of `EventHandler::update` in src/lib.rs, returning
the new state and whether the end-of-tick check requested `ggez::quit`
(which the source reaches exactly when `player.life <= 0.0`). -/
def tick (s : MainState) (dt : ℝ) (rng : ℕ → ℝ × ℝ × ℝ × ℝ) : MainState × Bool :=
  let s1 := fireStep s dt
  let s2 := { s1 with player :=
      wrap_actor_position (update_actor_position s1.player dt) s1.screen_width s1.screen_height }
  let s3 := { s2 with shots := s2.shots.map (fun a =>
      handle_timed_life
        (wrap_actor_position (update_actor_position a dt) s2.screen_width s2.screen_height) dt) }
  let s4 := { s3 with rocks := s3.rocks.map (fun a =>
      wrap_actor_position (update_actor_position a dt) s3.screen_width s3.screen_height) }
  let s5 := handle_collisions s4
  let s6 := clear_dead_stuff s5
  let s7 := check_for_level_respawn s6 rng
  (s7, decide (s7.player.life ≤ 0))

/-! ### Concrete states used by witnesses and counterexamples -/

/-- A degenerate randomness source: every raw sample is 0. -/
def rng0 : ℕ → ℝ × ℝ × ℝ × ℝ := fun _ => (0, 0, 0, 0)

/-- A state about to fire: the player drifts with velocity `(100, 0)` while
facing straight up, the fire button is held, and the cooldown has lapsed. -/
def sC1 : MainState :=
  { player := { create_player with velocity := ⟨100, 0⟩ },
    shots := [], rocks := [], level := 0, score := 0,
    screen_width := 640, screen_height := 480,
    input := { xaxis := 0, yaxis := 0, fire := true },
    player_shot_timeout := 0 }

/-- A state in which the player dies this tick: a rock sits on the player. -/
def sDead : MainState :=
  { player := { create_player with life := 0 },
    shots := [], rocks := [create_rock], level := 0, score := 0,
    screen_width := 640, screen_height := 480,
    input := InputState.default,
    player_shot_timeout := 1 }

/-- An actor two full screen widths to the right of the centre. -/
def a1280 : Actor := { create_player with pos := ⟨1280, 0⟩ }

/-- An actor safely inside the screen bounds. -/
def aInside : Actor := { create_player with pos := ⟨1, 2⟩ }

/-- A level-3 state whose last rock has just been pruned. -/
def sRespawn : MainState :=
  { player := create_player,
    shots := [], rocks := [], level := 3, score := 7,
    screen_width := 640, screen_height := 480,
    input := InputState.default,
    player_shot_timeout := 0.25 }

instance : Inhabited Actor := ⟨create_player⟩

/-! ### Predicates used to state the collision claims -/

/-- The shot-rock collision test of `handle_collisions` (strict inequality). -/
abbrev shotHit (shot rock : Actor) : Prop :=
  (shot.pos - rock.pos).norm < shot.bbox_size + rock.bbox_size

/-- The player-rock collision test of `handle_collisions` (strict inequality). -/
abbrev rockHitsPlayer (rock player : Actor) : Prop :=
  (rock.pos - player.pos).norm < player.bbox_size + rock.bbox_size

/-- Number of shots in the list strictly within collision distance of `rock`. -/
def shotHits (rock : Actor) : List Actor → ℤ
  | [] => 0
  | s :: rest => (if shotHit s rock then 1 else 0) + shotHits rock rest

/-- Number of (rock, shot) pairs strictly within collision distance. -/
def hitPairs (shots : List Actor) : List Actor → ℤ
  | [] => 0
  | r :: rest => shotHits r shots + hitPairs shots rest

end

/-! ### Codec lemmas -/

theorem beBytes_length (k n : Nat) : (beBytes k n).length = k := by
  induction k generalizing n with
  | zero => rfl
  | succ k ih => simp [beBytes, ih]

theorem foldl_beBytes (k : Nat) : ∀ n acc : Nat, n < 256 ^ k →
    (beBytes k n).foldl (fun a b => a * 256 + b) acc = acc * 256 ^ k + n := by
  induction k with
  | zero =>
    intro n acc h
    interval_cases n
    simp [beBytes]
  | succ k ih =>
    intro n acc h
    have hdiv : n / 256 < 256 ^ k := by
      rw [Nat.div_lt_iff_lt_mul (by norm_num)]
      calc n < 256 ^ (k + 1) := h
        _ = 256 ^ k * 256 := by ring
    rw [beBytes, List.foldl_append, ih (n / 256) acc hdiv]
    simp [List.foldl]
    rw [pow_succ]
    have := Nat.div_add_mod n 256
    ring_nf
    omega

theorem fromBE_beBytes (k n : Nat) (h : n < 256 ^ k) : fromBE (beBytes k n) = n := by
  unfold fromBE
  rw [foldl_beBytes k n 0 h]
  ring

theorem readBE_front (k n : Nat) (rest : List Nat) (h : n < 256 ^ k) :
    readBE k (beBytes k n ++ rest) = some (n, rest) := by
  have hl : (beBytes k n).length = k := beBytes_length k n
  unfold readBE
  rw [if_pos (by rw [List.length_append, hl]; omega)]
  rw [List.take_left' hl, List.drop_left' hl, fromBE_beBytes k n h]

theorem readBytes_front (key rest : List Nat) :
    readBytes key.length (key ++ rest) = some (key, rest) := by
  unfold readBytes
  rw [if_pos (by rw [List.length_append]; omega)]
  rw [List.take_left' rfl, List.drop_left' rfl]

theorem decodeEntry_front (key : List Nat) (v : Nat) (rest : List Nat)
    (hk : key.length < 256 ^ 4) (hv : v < 256 ^ 8) :
    decodeEntry (beBytes 4 key.length ++ (key ++ (beBytes 8 v ++ rest))) =
      some ((key, v), rest) := by
  unfold decodeEntry
  rw [readBE_front 4 key.length (key ++ (beBytes 8 v ++ rest)) hk]
  dsimp only
  rw [readBytes_front key (beBytes 8 v ++ rest)]
  dsimp only
  rw [readBE_front 8 v rest hv]

theorem decodeEntries_front (m : List (List Nat × Nat)) (rest : List Nat)
    (he : ∀ e ∈ m, e.1.length < 256 ^ 4 ∧ e.2 < 256 ^ 8) :
    decodeEntries m.length (encodeEntries m ++ rest) = some (m, rest) := by
  induction m generalizing rest with
  | nil => simp [decodeEntries, encodeEntries]
  | cons e m ih =>
    have hy := he e (by simp)
    rw [List.length_cons, encodeEntries]
    rw [decodeEntries]
    rw [List.append_assoc, List.append_assoc, List.append_assoc]
    rw [decodeEntry_front e.1 e.2 (encodeEntries m ++ rest) hy.1 hy.2]
    dsimp only
    rw [ih rest (fun x hx => he x (by simp [hx]))]

/-- C7: decoding the encoding of any finite map recovers the map.
The wire layer is modelled from the spec (section 4.12): keys are UTF-8 byte
strings shorter than 2^32 bytes, values are 64-bit patterns, and the map
itself holds fewer than 2^32 entries. -/
theorem decode_encode_roundtrip (m : List (List Nat × Nat))
    (hn : m.length < 256 ^ 4)
    (he : ∀ e ∈ m, e.1.length < 256 ^ 4 ∧ e.2 < 256 ^ 8) :
    bytevec_decode (bytevec_encode m) = some m := by
  have h2 := decodeEntries_front m [] he
  rw [List.append_nil] at h2
  unfold bytevec_decode bytevec_encode
  rw [readBE_front 4 m.length (encodeEntries m) hn]
  dsimp only
  rw [h2]
  dsimp only
  rw [if_pos rfl]

/-- Witness for C7 at the concrete map from the section 8 scenario of the spec:
the single entry maps the key "x" (byte 120) to the bit pattern of 1.0. -/
theorem decode_encode_roundtrip_witness :
    ([([120], 4607182418800017408)] : List (List Nat × Nat)).length < 256 ^ 4 ∧
    (∀ e ∈ ([([120], 4607182418800017408)] : List (List Nat × Nat)),
        e.1.length < 256 ^ 4 ∧ e.2 < 256 ^ 8) ∧
    bytevec_decode (bytevec_encode [([120], 4607182418800017408)]) =
      some [([120], 4607182418800017408)] :=
  ⟨by decide, by decide, decode_encode_roundtrip _ (by decide) (by decide)⟩

/-- C8: the wire format is a 32-bit big-endian entry count, then per entry a
32-bit big-endian key length, the key bytes, and the 8-byte big-endian
double; concretely the map sending "x" to 1.0 (bits 0x3FF0000000000000)
encodes to the displayed byte string. -/
theorem encode_wire_format :
    (∀ m : List (List Nat × Nat), bytevec_encode m =
        beBytes 4 m.length ++
          (m.map (fun e => beBytes 4 e.1.length ++ e.1 ++ beBytes 8 e.2)).flatten) ∧
    bytevec_encode [([120], 4607182418800017408)] =
      [0, 0, 0, 1, 0, 0, 0, 1, 120, 63, 240, 0, 0, 0, 0, 0, 0] := by
  constructor
  · intro m
    unfold bytevec_encode
    congr 1
    induction m with
    | nil => rfl
    | cons e m ih => simp [encodeEntries, ih]
  · decide

/-- C9 counterexample: on the malformed (empty) datagram the decoder panics
via `expect`; it does not return an `io::Error` value. -/
theorem decode_malformed_cex :
    HashMapCodec.decode [] = DecodeOutcome.panicked ∧
      HashMapCodec.decode [] ≠ DecodeOutcome.err := by
  decide

/-- C9 amended: whenever the inner decoder fails, `HashMapCodec::decode`
panics (the `expect` call aborts the transport task); no code path produces
an `io::Error` return for a malformed datagram. -/
theorem decode_malformed_panics (buf : List Nat) (h : bytevec_decode buf = none) :
    HashMapCodec.decode buf = DecodeOutcome.panicked ∧
      HashMapCodec.decode buf ≠ DecodeOutcome.err := by
  unfold HashMapCodec.decode
  rw [h]
  exact ⟨rfl, by simp⟩

/-- Witness for C9 at the empty datagram. -/
theorem decode_malformed_panics_witness :
    bytevec_decode [] = none ∧
      (HashMapCodec.decode [] = DecodeOutcome.panicked ∧
        HashMapCodec.decode [] ≠ DecodeOutcome.err) :=
  ⟨rfl, decode_malformed_panics [] rfl⟩

/-! ### Vector component lemmas -/

@[simp] theorem Vec2.add_x (a b : Vec2) : (a + b).x = a.x + b.x := rfl

@[simp] theorem Vec2.add_y (a b : Vec2) : (a + b).y = a.y + b.y := rfl

@[simp] theorem Vec2.sub_x (a b : Vec2) : (a - b).x = a.x - b.x := rfl

@[simp] theorem Vec2.sub_y (a b : Vec2) : (a - b).y = a.y - b.y := rfl

@[simp] theorem Vec2.smul_x (a : Vec2) (c : ℝ) : (a.smul c).x = a.x * c := rfl

@[simp] theorem Vec2.smul_y (a : Vec2) (c : ℝ) : (a.smul c).y = a.y * c := rfl

/-- The Euclidean norm of a vector whose squared norm is below a
nonnegative bound squared is below the bound. -/
theorem norm_le_of_normSq_le (v : Vec2) (b : ℝ) (hb : 0 ≤ b)
    (h : v.normSq ≤ b ^ 2) : v.norm ≤ b := by
  unfold Vec2.norm
  calc Real.sqrt v.normSq ≤ Real.sqrt (b ^ 2) := Real.sqrt_le_sqrt h
    _ = b := Real.sqrt_sq hb

/-- The norm of a scaled angle unit vector is the absolute scale. -/
theorem norm_unit_smul (ang d : ℝ) :
    Vec2.norm ⟨Real.sin ang * d, Real.cos ang * d⟩ = |d| := by
  unfold Vec2.norm Vec2.normSq
  have hs : Real.sin ang * d * (Real.sin ang * d) + Real.cos ang * d * (Real.cos ang * d)
      = d ^ 2 := by
    have h := Real.sin_sq_add_cos_sq ang
    nlinarith [h]
  rw [hs, Real.sqrt_sq_eq_abs]

/-- C3: after `update_actor_position` the Euclidean norm of the velocity is at
most `MAX_PHYSICS_VEL` (250), whatever the incoming velocity, and the new
velocity is a positive scalar multiple of the old one (direction kept). -/
theorem velocity_clamp (a : Actor) (dt : ℝ) :
    Vec2.norm (update_actor_position a dt).velocity ≤ MAX_PHYSICS_VEL ∧
    ∃ c : ℝ, 0 < c ∧
      (update_actor_position a dt).velocity.x = c * a.velocity.x ∧
      (update_actor_position a dt).velocity.y = c * a.velocity.y := by
  unfold update_actor_position
  dsimp only
  by_cases h : a.velocity.normSq > MAX_PHYSICS_VEL ^ 2
  · rw [if_pos h]
    dsimp only
    have h0 : (0 : ℝ) < a.velocity.normSq := by
      have hM : (0 : ℝ) < MAX_PHYSICS_VEL ^ 2 := by norm_num [MAX_PHYSICS_VEL]
      linarith
    have hs : 0 < Real.sqrt a.velocity.normSq := Real.sqrt_pos.mpr h0
    have hss : Real.sqrt a.velocity.normSq * Real.sqrt a.velocity.normSq
        = a.velocity.normSq := Real.mul_self_sqrt h0.le
    constructor
    · apply norm_le_of_normSq_le _ _ (by norm_num [MAX_PHYSICS_VEL])
      have expand : Vec2.normSq
          ⟨a.velocity.x / Real.sqrt a.velocity.normSq * MAX_PHYSICS_VEL,
           a.velocity.y / Real.sqrt a.velocity.normSq * MAX_PHYSICS_VEL⟩
          = a.velocity.normSq /
              (Real.sqrt a.velocity.normSq * Real.sqrt a.velocity.normSq) *
              MAX_PHYSICS_VEL ^ 2 := by
        unfold Vec2.normSq
        ring
      rw [expand, hss, div_self (ne_of_gt h0), one_mul]
    · refine ⟨MAX_PHYSICS_VEL / Real.sqrt a.velocity.normSq,
        div_pos (by norm_num [MAX_PHYSICS_VEL]) hs, by ring, by ring⟩
  · rw [if_neg h]
    push_neg at h
    exact ⟨norm_le_of_normSq_le _ _ (by norm_num [MAX_PHYSICS_VEL]) h,
      1, by norm_num, by ring, by ring⟩

/-! ### Wrap lemmas -/

/-- A coordinate already within the closed half-screen bounds is left
unchanged by `wrapCoord` (both comparisons are strict). -/
theorem wrapCoord_fixed (x s : ℝ) (h1 : x ≤ s / 2) (h2 : -(s / 2) ≤ x) :
    wrapCoord x s = x := by
  unfold wrapCoord
  rw [if_neg (by linarith), if_neg (by linarith)]

/-- One application of `wrapCoord` lands inside the closed bounds provided
the input is at most one screen width outside them. -/
theorem wrapCoord_bounded (x s : ℝ) (hs : 0 < s) (hx : |x| ≤ 3 * s / 2) :
    wrapCoord x s ≤ s / 2 ∧ -(s / 2) ≤ wrapCoord x s := by
  have hx1 := (abs_le.mp hx).1
  have hx2 := (abs_le.mp hx).2
  unfold wrapCoord
  split_ifs with h1 h2
  · constructor <;> linarith
  · constructor <;> linarith
  · push_neg at h1 h2
    constructor <;> linarith

/-- C6 counterexample: for an actor two screen widths to the right
(x = 1280 on a 640-wide screen) wrapping twice disagrees with wrapping
once, so `wrap` is not idempotent on all positions. -/
theorem wrap_idempotent_cex :
    (wrap_actor_position (wrap_actor_position a1280 640 480) 640 480).pos.x ≠
      (wrap_actor_position a1280 640 480).pos.x := by
  unfold a1280 wrap_actor_position wrapCoord create_player
  norm_num

/-- C6 amended: `wrap` is idempotent on positions at most one screen width
outside the bounds (|x| ≤ 3W/2, |y| ≤ 3H/2) — the single-step regime the
game stays in — and the strict comparison leaves x = W/2 unchanged.
Unbounded positions can need several wraps, as the counterexample shows. -/
theorem wrap_idempotent (a : Actor) (sx sy : ℝ) (hsx : 0 < sx) (hsy : 0 < sy)
    (hx : |a.pos.x| ≤ 3 * sx / 2) (hy : |a.pos.y| ≤ 3 * sy / 2) :
    wrap_actor_position (wrap_actor_position a sx sy) sx sy =
      wrap_actor_position a sx sy ∧
    (a.pos.x = sx / 2 → (wrap_actor_position a sx sy).pos.x = a.pos.x) := by
  have hbx := wrapCoord_bounded a.pos.x sx hsx hx
  have hby := wrapCoord_bounded a.pos.y sy hsy hy
  constructor
  · unfold wrap_actor_position
    dsimp only
    rw [wrapCoord_fixed _ _ hbx.1 hbx.2, wrapCoord_fixed _ _ hby.1 hby.2]
  · intro hhalf
    unfold wrap_actor_position
    dsimp only
    rw [hhalf, wrapCoord_fixed _ _ le_rfl (by linarith)]

/-- Witness for C6 at a position safely inside a 640 by 480 screen. -/
theorem wrap_idempotent_witness :
    (0 : ℝ) < 640 ∧ (0 : ℝ) < 480 ∧
      |aInside.pos.x| ≤ 3 * 640 / 2 ∧ |aInside.pos.y| ≤ 3 * 480 / 2 ∧
      (wrap_actor_position (wrap_actor_position aInside 640 480) 640 480 =
          wrap_actor_position aInside 640 480 ∧
        (aInside.pos.x = 640 / 2 →
          (wrap_actor_position aInside 640 480).pos.x = aInside.pos.x)) :=
  ⟨by norm_num, by norm_num, by norm_num [aInside, create_player],
    by norm_num [aInside, create_player],
    wrap_idempotent aInside 640 480 (by norm_num) (by norm_num)
      (by norm_num [aInside, create_player]) (by norm_num [aInside, create_player])⟩

/-! ### Level respawn -/

/-- C4: when the rock list is empty after pruning, the level increments by
exactly one and exactly (incremented) level + 5 rocks are spawned, each at a
distance in [100, 250) from the player, given that the raw distance samples
lie in [0, 1). -/
theorem level_respawn (s : MainState) (rng : ℕ → ℝ × ℝ × ℝ × ℝ)
    (hempty : s.rocks = []) (hlevel : 0 ≤ s.level)
    (hrng : ∀ i, 0 ≤ (rng i).2.1 ∧ (rng i).2.1 < 1) :
    (check_for_level_respawn s rng).level = s.level + 1 ∧
    ((check_for_level_respawn s rng).rocks.length : ℤ) = s.level + 6 ∧
    ∀ r ∈ (check_for_level_respawn s rng).rocks,
      100 ≤ (r.pos - s.player.pos).norm ∧ (r.pos - s.player.pos).norm < 250 := by
  unfold check_for_level_respawn
  rw [hempty]
  rw [if_pos (show (List.isEmpty ([] : List Actor)) = true from rfl)]
  dsimp only
  refine ⟨rfl, ?_, ?_⟩
  · unfold create_rocks
    rw [List.nil_append, List.length_map, List.length_range,
      Int.toNat_of_nonneg (by omega)]
    ring
  · intro r hr
    rw [List.nil_append] at hr
    unfold create_rocks at hr
    rw [List.mem_map] at hr
    obtain ⟨i, _, hri⟩ := hr
    subst hri
    dsimp only
    have hdist : ({ create_rock with
        pos := s.player.pos +
          (vec_from_angle ((rng i).1 * (2 * Real.pi))).smul
            ((rng i).2.1 * (250 - 100) + 100),
        velocity := random_vec MAX_ROCK_VEL (rng i).2.2.1 (rng i).2.2.2 } :
          Actor).pos - s.player.pos =
        ⟨Real.sin ((rng i).1 * (2 * Real.pi)) * ((rng i).2.1 * (250 - 100) + 100),
         Real.cos ((rng i).1 * (2 * Real.pi)) * ((rng i).2.1 * (250 - 100) + 100)⟩ := by
      dsimp only [vec_from_angle, Vec2.smul]
      refine Vec2.mk.injEq .. ▸ ?_
      constructor <;> dsimp <;> ring
    rw [hdist, norm_unit_smul]
    have h1 := (hrng i).1
    have h2 := (hrng i).2
    rw [abs_of_nonneg (by nlinarith)]
    constructor <;> nlinarith

/-- Witness for C4: from level 3 with the rock list just emptied, the level
becomes 4 and 9 rocks are spawned in the annulus. -/
theorem level_respawn_witness :
    sRespawn.rocks = [] ∧ (0 : ℤ) ≤ sRespawn.level ∧
      (∀ i, 0 ≤ (rng0 i).2.1 ∧ (rng0 i).2.1 < 1) ∧
      ((check_for_level_respawn sRespawn rng0).level = sRespawn.level + 1 ∧
        ((check_for_level_respawn sRespawn rng0).rocks.length : ℤ) = sRespawn.level + 6 ∧
        ∀ r ∈ (check_for_level_respawn sRespawn rng0).rocks,
          100 ≤ (r.pos - sRespawn.player.pos).norm ∧
            (r.pos - sRespawn.player.pos).norm < 250) :=
  ⟨rfl, by norm_num [sRespawn], fun i => ⟨le_rfl, by norm_num [rng0]⟩,
    level_respawn sRespawn rng0 rfl (by norm_num [sRespawn])
      (fun i => ⟨le_rfl, by norm_num [rng0]⟩)⟩

/-! ### Collision resolver lemmas -/

theorem shotHits_rock_life (rock : Actor) (c : ℝ) (l : List Actor) :
    shotHits { rock with life := c } l = shotHits rock l := by
  induction l with
  | nil => rfl
  | cons sh rest ih => rw [shotHits, shotHits, ih]

theorem collideShots_score (rock : Actor) (shots : List Actor) :
    (collideShots rock shots).2.2 = shotHits rock shots := by
  induction shots generalizing rock with
  | nil => rfl
  | cons sh rest ih =>
    simp only [collideShots, shotHits]
    by_cases h : shotHit sh rock
    · rw [if_pos h, if_pos h]
      dsimp only
      rw [ih { rock with life := 0 }, shotHits_rock_life]
      ring
    · rw [if_neg h, if_neg h]
      dsimp only
      rw [ih rock]
      ring

theorem collideShots_shots (rock : Actor) (shots : List Actor) :
    (collideShots rock shots).2.1 =
      shots.map (fun sh => if shotHit sh rock then { sh with life := 0 } else sh) := by
  induction shots generalizing rock with
  | nil => rfl
  | cons sh rest ih =>
    simp only [collideShots, List.map]
    by_cases h : shotHit sh rock
    · rw [if_pos h, if_pos h]
      dsimp only
      rw [ih { rock with life := 0 }]
    · rw [if_neg h, if_neg h]
      dsimp only
      rw [ih rock]

theorem collideShots_rock (rock : Actor) (shots : List Actor) :
    (collideShots rock shots).1 =
      if ∃ sh ∈ shots, shotHit sh rock then { rock with life := 0 } else rock := by
  induction shots generalizing rock with
  | nil => simp [collideShots]
  | cons sh rest ih =>
    simp only [collideShots]
    by_cases h : shotHit sh rock
    · rw [if_pos h]
      dsimp only
      rw [ih { rock with life := 0 }]
      rw [if_pos (show ∃ x ∈ sh :: rest, shotHit x rock from
        ⟨sh, List.mem_cons_self sh rest, h⟩)]
      by_cases h2 : ∃ x ∈ rest, shotHit x { rock with life := 0 }
      · rw [if_pos h2]
      · rw [if_neg h2]
    · rw [if_neg h]
      dsimp only
      rw [ih rock]
      have hiff : (∃ x ∈ rest, shotHit x rock) ↔ (∃ x ∈ sh :: rest, shotHit x rock) := by
        constructor
        · rintro ⟨x, hx, hh⟩
          exact ⟨x, List.mem_cons_of_mem _ hx, hh⟩
        · rintro ⟨x, hx, hh⟩
          rcases List.mem_cons.mp hx with rfl | hx2
          · exact absurd hh h
          · exact ⟨x, hx2, hh⟩
      rw [if_congr hiff rfl rfl]

theorem shotHits_map_life (r2 rock : Actor) (shots : List Actor) :
    shotHits r2
        (shots.map (fun sh => if shotHit sh rock then { sh with life := 0 } else sh))
      = shotHits r2 shots := by
  induction shots with
  | nil => rfl
  | cons sh rest ih =>
    simp only [List.map, shotHits, ih]
    congr 1
    by_cases hc : shotHit sh rock
    · simp only [if_pos hc]
    · simp only [if_neg hc]

theorem hitPairs_map_life (rock : Actor) (shots rest : List Actor) :
    hitPairs
        (shots.map (fun sh => if shotHit sh rock then { sh with life := 0 } else sh)) rest
      = hitPairs shots rest := by
  induction rest with
  | nil => rfl
  | cons r rr ih => simp only [hitPairs, ih, shotHits_map_life]

theorem handleRocks_score (player : Actor) (shots : List Actor) (score : ℤ)
    (rocks : List Actor) :
    (handleRocks player shots score rocks).2.2.1 = score + hitPairs shots rocks := by
  induction rocks generalizing player shots score with
  | nil => simp [handleRocks, hitPairs]
  | cons rock rest ih =>
    simp only [handleRocks, hitPairs]
    rw [collideShots_score, collideShots_shots, ih, hitPairs_map_life]
    ring

theorem handleRocks_player (player : Actor) (shots : List Actor) (score : ℤ)
    (rocks : List Actor) :
    (handleRocks player shots score rocks).1 =
      if ∃ r ∈ rocks, rockHitsPlayer r player then { player with life := 0 } else player := by
  induction rocks generalizing player shots score with
  | nil => simp [handleRocks]
  | cons rock rest ih =>
    simp only [handleRocks]
    by_cases h : rockHitsPlayer rock player
    · rw [if_pos h]
      rw [ih]
      rw [if_pos (show ∃ r ∈ rock :: rest, rockHitsPlayer r player from
        ⟨rock, List.mem_cons_self rock rest, h⟩)]
      by_cases h2 : ∃ r ∈ rest, rockHitsPlayer r { player with life := 0 }
      · rw [if_pos h2]
      · rw [if_neg h2]
    · rw [if_neg h]
      rw [ih]
      have hiff : (∃ r ∈ rest, rockHitsPlayer r player) ↔
          (∃ r ∈ rock :: rest, rockHitsPlayer r player) := by
        constructor
        · rintro ⟨x, hx, hh⟩
          exact ⟨x, List.mem_cons_of_mem _ hx, hh⟩
        · rintro ⟨x, hx, hh⟩
          rcases List.mem_cons.mp hx with rfl | hx2
          · exact absurd hh h
          · exact ⟨x, hx2, hh⟩
      rw [if_congr hiff rfl rfl]

theorem exists_shotHit_map (rock r : Actor) (shots : List Actor) :
    (∃ sh ∈ shots.map (fun sh => if shotHit sh rock then { sh with life := 0 } else sh),
        shotHit sh r) ↔ (∃ sh ∈ shots, shotHit sh r) := by
  simp only [List.mem_map]
  constructor
  · rintro ⟨sh2, ⟨sh, hsh, rfl⟩, hhit⟩
    refine ⟨sh, hsh, ?_⟩
    by_cases hc : shotHit sh rock
    · rw [if_pos hc] at hhit
      exact hhit
    · rw [if_neg hc] at hhit
      exact hhit
  · rintro ⟨sh, hsh, hhit⟩
    refine ⟨if shotHit sh rock then { sh with life := 0 } else sh, ⟨sh, hsh, rfl⟩, ?_⟩
    by_cases hc : shotHit sh rock
    · rw [if_pos hc]
      exact hhit
    · rw [if_neg hc]
      exact hhit

theorem handleRocks_rocks (player : Actor) (shots : List Actor) (score : ℤ)
    (rocks : List Actor) :
    (handleRocks player shots score rocks).2.2.2 =
      rocks.map (fun r => if ∃ sh ∈ shots, shotHit sh r then { r with life := 0 } else r) := by
  induction rocks generalizing player shots score with
  | nil => simp [handleRocks]
  | cons rock rest ih =>
    simp only [handleRocks, List.map]
    rw [collideShots_rock, collideShots_shots, ih]
    congr 1
    refine List.map_congr_left ?_
    intro r hr
    exact if_congr (exists_shotHit_map rock r shots) rfl rfl

/-- C5: the player-rock test is strict: the life of the player becomes 0 exactly
when some rock is strictly closer than the sum of the bounding radii, and a
rock at exactly that distance (or farther) leaves the life unchanged. -/
theorem player_rock_collision_strict (s : MainState) :
    ((∃ r ∈ s.rocks, rockHitsPlayer r s.player) ∧ (handle_collisions s).player.life = 0) ∨
    ((¬ ∃ r ∈ s.rocks, rockHitsPlayer r s.player) ∧
      (handle_collisions s).player.life = s.player.life) := by
  unfold handle_collisions
  dsimp only
  rw [handleRocks_player]
  by_cases h : ∃ r ∈ s.rocks, rockHitsPlayer r s.player
  · exact Or.inl ⟨h, by rw [if_pos h]⟩
  · exact Or.inr ⟨h, by rw [if_neg h]⟩

/-- C10: one pass of `handle_collisions` adds to the score exactly the
number of (rock, shot) pairs strictly within collision distance — a shot
already dead from an earlier rock still kills later rocks and scores again —
and the life of a rock is zeroed exactly when some shot (dead or alive) is
strictly within range. -/
theorem collision_score_pairs (s : MainState) :
    (handle_collisions s).score = s.score + hitPairs s.shots s.rocks ∧
    (handle_collisions s).rocks = s.rocks.map
      (fun r => if ∃ sh ∈ s.shots, shotHit sh r then { r with life := 0 } else r) := by
  unfold handle_collisions
  dsimp only
  exact ⟨by rw [handleRocks_score], by rw [handleRocks_rocks]⟩

/-! ### Firing -/

/-- C1 counterexample: with the player drifting at velocity (100, 0) and
facing 0, the shot fired this tick has horizontal velocity 0 (the code sets
the shot velocity from the facing alone), not the 100 that adding the
velocity of the player would give.  This refutes the claimed
`player.velocity + SHOT_SPEED * unit(facing)` formula. -/
theorem fire_shot_velocity_cex :
    (fireStep sC1 (1/60)).shots.headI.velocity.x ≠
      sC1.player.velocity.x +
        SHOT_SPEED *
          (vec_from_angle (player_handle_input sC1.player sC1.input (1/60)).facing).x := by
  have hL : (fireStep sC1 (1/60)).shots.headI.velocity.x = 0 := by
    norm_num [fireStep, fire_player_shot, player_handle_input, player_thrust, sC1,
      create_player, create_shot, vec_from_angle, PLAYER_TURN_RATE, SHOT_SPEED,
      Real.sin_zero, List.headI]
  have hR : sC1.player.velocity.x +
      SHOT_SPEED *
        (vec_from_angle (player_handle_input sC1.player sC1.input (1/60)).facing).x
      = 100 := by
    norm_num [player_handle_input, player_thrust, sC1, create_player, vec_from_angle,
      PLAYER_TURN_RATE, SHOT_SPEED, Real.sin_zero]
  rw [hL, hR]
  norm_num

/-- C1 amended: when the fire button is held and the decremented cooldown is
below zero, the tick appends exactly one shot at the player pose whose
velocity is `SHOT_SPEED` times the facing unit vector — the own player
velocity is NOT added — and the cooldown is reset to `PLAYER_SHOT_TIME`. -/
theorem fire_shot_velocity (s : MainState) (dt : ℝ)
    (hfire : s.input.fire = true) (htime : s.player_shot_timeout - dt < 0) :
    (fireStep s dt).player_shot_timeout = PLAYER_SHOT_TIME ∧
    (fireStep s dt).shots = s.shots ++
      [{ create_shot with
          pos := (player_handle_input s.player s.input dt).pos,
          facing := (player_handle_input s.player s.input dt).facing,
          velocity :=
            ⟨SHOT_SPEED *
                (vec_from_angle (player_handle_input s.player s.input dt).facing).x,
             SHOT_SPEED *
                (vec_from_angle (player_handle_input s.player s.input dt).facing).y⟩ }] := by
  unfold fireStep
  dsimp only
  rw [if_pos ⟨hfire, htime⟩]
  exact ⟨rfl, rfl⟩

/-- Witness for C1 at the concrete pre-fire state. -/
theorem fire_shot_velocity_witness :
    sC1.input.fire = true ∧ sC1.player_shot_timeout - 1/60 < 0 ∧
      ((fireStep sC1 (1/60)).player_shot_timeout = PLAYER_SHOT_TIME ∧
        (fireStep sC1 (1/60)).shots = sC1.shots ++
          [{ create_shot with
              pos := (player_handle_input sC1.player sC1.input (1/60)).pos,
              facing := (player_handle_input sC1.player sC1.input (1/60)).facing,
              velocity :=
                ⟨SHOT_SPEED *
                    (vec_from_angle
                      (player_handle_input sC1.player sC1.input (1/60)).facing).x,
                 SHOT_SPEED *
                    (vec_from_angle
                      (player_handle_input sC1.player sC1.input (1/60)).facing).y⟩ }]) :=
  ⟨rfl, by norm_num [sC1], fire_shot_velocity sC1 (1/60) rfl (by norm_num [sC1])⟩

/-! ### Death and quitting -/

theorem player_handle_input_life (a : Actor) (inp : InputState) (dt : ℝ) :
    (player_handle_input a inp dt).life = a.life := by
  unfold player_handle_input player_thrust
  dsimp only
  split_ifs <;> rfl

theorem update_actor_position_life (a : Actor) (dt : ℝ) :
    (update_actor_position a dt).life = a.life := by
  unfold update_actor_position
  dsimp only
  split_ifs <;> rfl

theorem wrap_actor_position_life (a : Actor) (sx sy : ℝ) :
    (wrap_actor_position a sx sy).life = a.life := rfl

theorem fireStep_player (s : MainState) (dt : ℝ) :
    (fireStep s dt).player = player_handle_input s.player s.input dt := by
  unfold fireStep fire_player_shot
  dsimp only
  split_ifs <;> rfl

theorem clear_dead_stuff_player (s : MainState) :
    (clear_dead_stuff s).player = s.player := rfl

theorem check_for_level_respawn_player (s : MainState) (rng : ℕ → ℝ × ℝ × ℝ × ℝ) :
    (check_for_level_respawn s rng).player = s.player := by
  unfold check_for_level_respawn
  split_ifs <;> rfl

theorem handle_collisions_player_life (s : MainState) :
    (handle_collisions s).player.life = s.player.life ∨
      (handle_collisions s).player.life = 0 := by
  unfold handle_collisions
  dsimp only
  rw [handleRocks_player]
  by_cases h : ∃ r ∈ s.rocks, rockHitsPlayer r s.player
  · right
    rw [if_pos h]
  · left
    rw [if_neg h]

theorem tick_snd (s : MainState) (dt : ℝ) (rng : ℕ → ℝ × ℝ × ℝ × ℝ) :
    (tick s dt rng).2 = decide ((tick s dt rng).1.player.life ≤ 0) := rfl

theorem tick_player_life (s : MainState) (dt : ℝ) (rng : ℕ → ℝ × ℝ × ℝ × ℝ) :
    (tick s dt rng).1.player.life = s.player.life ∨
      (tick s dt rng).1.player.life = 0 := by
  unfold tick
  dsimp only
  rw [check_for_level_respawn_player, clear_dead_stuff_player]
  rcases handle_collisions_player_life _ with h | h
  · rw [h]
    left
    dsimp only
    rw [wrap_actor_position_life, update_actor_position_life, fireStep_player,
      player_handle_input_life]
  · rw [h]
    right
    rfl

/-- C2 amended: when `player.life ≤ 0` at the end of a tick the game
requests `ggez::quit` — the process terminates — and this is the only way a
tick requests quitting; the code has no Dead mode and performs no reset (the
counterexample exhibits the unreset world). -/
theorem death_quit (s : MainState) (dt : ℝ) (rng : ℕ → ℝ × ℝ × ℝ × ℝ) :
    ((tick s dt rng).2 = true ↔ (tick s dt rng).1.player.life ≤ 0) ∧
    (s.player.life ≤ 0 → (tick s dt rng).2 = true) := by
  have hiff : (tick s dt rng).2 = true ↔ (tick s dt rng).1.player.life ≤ 0 := by
    rw [tick_snd]
    exact decide_eq_true_iff
  refine ⟨hiff, fun h => hiff.mpr ?_⟩
  rcases tick_player_life s dt rng with h2 | h2
  · rw [h2]
    exact h
  · rw [h2]

/-- Witness for C2 at the concrete dead-player state. -/
theorem death_quit_witness :
    sDead.player.life ≤ 0 ∧
      (((tick sDead (1/60) rng0).2 = true ↔
          (tick sDead (1/60) rng0).1.player.life ≤ 0) ∧
        (sDead.player.life ≤ 0 → (tick sDead (1/60) rng0).2 = true)) :=
  ⟨by norm_num [sDead, create_player], death_quit sDead (1/60) rng0⟩

/-- C2 counterexample: in the state whose player is dead this tick, the tick
requests quit (the game terminates) and the world is NOT reset: the rock
list still holds the single old rock instead of the 5 respawned rocks the
claimed reset would produce, refuting the Dead-mode transition. -/
theorem death_quit_cex :
    (tick sDead (1/60) rng0).2 = true ∧
      (tick sDead (1/60) rng0).1.rocks.length = 1 := by
  constructor
  · rw [tick_snd, decide_eq_true_eq]
    rcases tick_player_life sDead (1/60) rng0 with h | h
    · rw [h]
      norm_num [sDead, create_player]
    · rw [h]
  · norm_num [tick, sDead, fireStep, fire_player_shot, player_handle_input, player_thrust,
      update_actor_position, wrap_actor_position, wrapCoord, handle_timed_life,
      handle_collisions, handleRocks, collideShots, clear_dead_stuff, pruneDead,
      check_for_level_respawn, create_rock, create_player, InputState.default,
      Vec2.normSq, Vec2.norm, Vec2.smul, Real.sqrt_zero,
      MAX_PHYSICS_VEL, PLAYER_TURN_RATE, PLAYER_BBOX, ROCK_BBOX, ROCK_LIFE, PLAYER_LIFE]

end Astroblasto
